import Mathlib

/-!
Verification development for the DNSpy DNS wire-format codec
(dns_packet.py).  The Python source is shallowly embedded: byte buffers
become lists of naturals, exceptions become an error type, and the
pointer-decompression recursion of DomainName.parse_from is made total
with an explicit recursion budget (fuel).  A run of the Python code that
terminates is reproduced by the embedding at every sufficiently large
budget; a run that recurses without bound returns fuelOut at every budget.
-/

/-- Byte buffers (Python bytes objects) as lists of naturals.  A real
buffer has every element below 256; theorems that need this bound state
it as a hypothesis. -/
abbrev Bytes := List Nat

/-- One domain-name label, as its raw byte values. -/
abbrev Label := List Nat

/-- A domain name: the list of labels held by the DomainName list
subclass.  The root name is the one-element list holding the empty
label. -/
abbrev Name := List Label

/-- Python exceptions that the codec can raise, by site. -/
inductive PErr where
  | indexError
  | structError
  | unicodeError
  | charsetError
  | nameTooLong
  | ptrToPtr
  | invalidLabel
  | valueError
  | rdlengthMismatch
  | tooManyRecords
  | countMismatch
  deriving Repr, DecidableEq

/-- Result of a fallible parser run under an explicit recursion and loop
budget.  fuelOut means the budget was exhausted while the Python code
would still be running. -/
inductive Res (α : Type) where
  | ok (a : α)
  | err (e : PErr)
  | fuelOut
  deriving Repr, DecidableEq

/-- Membership in set(string.ascii_letters + string.digits + hyphen),
decided on the byte value of the character. -/
def allowedByte (b : Nat) : Bool :=
  (decide (65 ≤ b) && decide (b ≤ 90)) || (decide (97 ≤ b) && decide (b ≤ 122)) ||
    (decide (48 ≤ b) && decide (b ≤ 57)) || (b == 45)

/-- Loop body of DomainName.parse_from (dns_packet.py lines 379-413).
The accumulator seq is the local variable sequence.  The recursive call
in the pointer branch inlines parse_from itself, including the
DomainName constructor upgrade of an empty label list to the root name.
Fuel is spent once per loop iteration and once per pointer recursion. -/
def parseLoop : Nat → Bytes → Nat → Name → Res (Name × Nat)
  | 0, _, _, _ => .fuelOut
  | fuel + 1, data, offset, seq =>
    match data[offset]? with
    | none => .err .indexError
    | some b =>
      if b == 0 then
        .ok (seq, offset + 1)
      else if b < 64 then
        let label := (data.drop (offset + 1)).take b
        if label.all (fun c => decide (c < 128)) then
          if label.all allowedByte then
            let seq2 := seq ++ [label]
            if (seq2.map List.length).sum < 256 then
              parseLoop fuel data (offset + b + 1) seq2
            else .err .nameTooLong
          else .err .charsetError
        else .err .unicodeError
      else if 192 ≤ b then
        match data[offset + 1]? with
        | none => .err .indexError
        | some b2 =>
          let ptr := ((b &&& 63) <<< 8) ||| b2
          match data[ptr]? with
          | none => .err .indexError
          | some tb =>
            if tb < 64 then
              match parseLoop fuel data ptr [] with
              | .ok (lbls, _) =>
                .ok (seq ++ (if lbls.isEmpty then [[]] else lbls), offset + 2)
              | .err e => .err e
              | .fuelOut => .fuelOut
            else .err .ptrToPtr
      else .err .invalidLabel

/-- DomainName.parse_from: run the label loop from an empty sequence and
apply the DomainName constructor, which upgrades an empty list of labels
to the root name. -/
def parse_from (fuel : Nat) (data : Bytes) (offset : Nat) : Res (Name × Nat) :=
  match parseLoop fuel data offset [] with
  | .ok (seq, o) => .ok ((if seq.isEmpty then [[]] else seq), o)
  | .err e => .err e
  | .fuelOut => .fuelOut

/-- DomainName.encode: emit every label before the first empty one as a
length byte followed by its bytes, then a zero terminator. -/
def DomainName.encode : Name → Bytes
  | [] => [0]
  | l :: ls => if l.isEmpty then [0] else (l.length :: l) ++ DomainName.encode ls

/-- Read one byte, with 0 for an out-of-range index.  Callers guard the
range themselves, mirroring struct.unpack_from size checks. -/
def rdByte (data : Bytes) (i : Nat) : Nat := (data[i]?).getD 0

/-- Big-endian 16-bit read at an index (guarded by the caller). -/
def u16at (data : Bytes) (i : Nat) : Nat := rdByte data i * 256 + rdByte data (i + 1)

/-- Big-endian 32-bit read at an index (guarded by the caller). -/
def u32at (data : Bytes) (i : Nat) : Nat :=
  rdByte data i * 16777216 + rdByte data (i + 1) * 65536 +
    rdByte data (i + 2) * 256 + rdByte data (i + 3)

/-- Big-endian 16-bit write, struct.pack with format H.  The Python
call raises for values at or above 2 ^ 16; claims only apply it below
that bound, where this definition agrees with it. -/
def u16be (n : Nat) : Bytes := [n / 256 % 256, n % 256]

/-- Big-endian 32-bit write, struct.pack with format I, on values below
2 ^ 32. -/
def u32be (n : Nat) : Bytes :=
  [n / 16777216 % 256, n / 65536 % 256, n / 256 % 256, n % 256]

/-- A DNS question: name, query type and query class.  Unknown numeric
codes pass through unchanged, so both codes are plain naturals (the
Python IntEnum values equal their numeric codes). -/
structure DnsQuestion where
  name : Name
  qtype : Nat
  qclass : Nat
  deriving Repr, DecidableEq

/-- DnsQuestion.parse: a name, then two big-endian 16-bit codes.  The
DnsQType and DnsQClass conversions keep the numeric value (ValueError
falls back to the raw integer), so they do not appear. -/
def DnsQuestion.parse (fuel : Nat) (data : Bytes) (offset : Nat) :
    Res (DnsQuestion × Nat) :=
  match parse_from fuel data offset with
  | .ok (name, o) =>
    if o + 4 ≤ data.length then
      .ok (⟨name, u16at data o, u16at data (o + 2)⟩, o + 4)
    else .err .structError
  | .err e => .err e
  | .fuelOut => .fuelOut

/-- DnsQuestion.encode. -/
def DnsQuestion.encode (q : DnsQuestion) : Bytes :=
  DomainName.encode q.name ++ u16be q.qtype ++ u16be q.qclass

/-- Numeric record-type codes.  Modelled from the spec: DNSpy.enums is
not under src; the spec names the compression-eligible member set NS,
SOA, CNAME, PTR and the handlers for A and AAAA, with the standard DNS
numeric codes. -/
def rtNS : Nat := 2

/-- Numeric code of CNAME (see rtNS). -/
def rtCNAME : Nat := 5

/-- Numeric code of SOA (see rtNS). -/
def rtSOA : Nat := 6

/-- Numeric code of PTR (see rtNS). -/
def rtPTR : Nat := 12

/-- Membership test for the list [DnsRType.NS, DnsRType.SOA,
DnsRType.CNAME, DnsRType.PTR] of dns_packet.py line 176. -/
def isCompressionEligible (t : Nat) : Bool :=
  t == rtNS || t == rtSOA || t == rtCNAME || t == rtPTR

/-- RData.get_handler(rtype).parse(data, offset).encode() for the four
name-bearing types reached from DnsRecord.parse: SOA parses two names
and four 32-bit integers, the others one name.  Other type codes never
reach this function from DnsRecord.parse. -/
def reencodeRData (fuel : Nat) (t : Nat) (data : Bytes) (offset : Nat) : Res Bytes :=
  if t == rtSOA then
    match parse_from fuel data offset with
    | .ok (mname, o1) =>
      match parse_from fuel data o1 with
      | .ok (rname, o2) =>
        if o2 + 16 ≤ data.length then
          .ok (DomainName.encode mname ++ DomainName.encode rname ++
            u32be (u32at data o2) ++ u32be (u32at data (o2 + 4)) ++
            u32be (u32at data (o2 + 8)) ++ u32be (u32at data (o2 + 12)))
        else .err .structError
      | .err e => .err e
      | .fuelOut => .fuelOut
    | .err e => .err e
    | .fuelOut => .fuelOut
  else
    match parse_from fuel data offset with
    | .ok (name, _) => .ok (DomainName.encode name)
    | .err e => .err e
    | .fuelOut => .fuelOut

/-- A resource record.  compressed_rdata models the attribute that
DnsRecord.parse attaches after the fact when the wire form of a
name-bearing payload was compressed; it is none otherwise. -/
structure DnsRecord where
  name : Name
  rtype : Nat
  rclass : Nat
  ttl : Nat
  rdlength : Nat
  rdata : Bytes
  compressed_rdata : Option Bytes
  deriving Repr, DecidableEq

/-- DnsRecord.__init__: rdlength is set from the payload length, and no
compressed_rdata attribute exists yet.  The DnsRType and DnsRClass
conversions keep the numeric value. -/
def DnsRecord.init (name : Name) (rtype rclass ttl : Nat) (rdata : Bytes) : DnsRecord :=
  ⟨name, rtype, rclass, ttl, rdata.length, rdata, none⟩

/-- DnsRecord.parse (dns_packet.py lines 153-183). -/
def DnsRecord.parse (fuel : Nat) (data : Bytes) (offset : Nat) :
    Res (DnsRecord × Nat) :=
  match parse_from fuel data offset with
  | .ok (name, o1) =>
    if o1 + 10 ≤ data.length then
      let rtype := u16at data o1
      let rclass := u16at data (o1 + 2)
      let ttl := u32at data (o1 + 4)
      let rdlength := u16at data (o1 + 8)
      let o2 := o1 + 10
      let compressed := (data.drop o2).take rdlength
      if compressed.length == rdlength then
        if isCompressionEligible rtype then
          match reencodeRData fuel rtype data o2 with
          | .ok uncompressed =>
            if uncompressed == compressed then
              .ok (DnsRecord.init name rtype rclass ttl compressed, o2 + rdlength)
            else
              .ok (⟨name, rtype, rclass, ttl, uncompressed.length, uncompressed,
                some compressed⟩, o2 + rdlength)
          | .err e => .err e
          | .fuelOut => .fuelOut
        else .ok (DnsRecord.init name rtype rclass ttl compressed, o2 + rdlength)
      else .err .rdlengthMismatch
    else .err .structError
  | .err e => .err e
  | .fuelOut => .fuelOut

/-- DnsRecord.encode: note that the length field written is the stored
rdlength attribute. -/
def DnsRecord.encode (r : DnsRecord) : Bytes :=
  DomainName.encode r.name ++ u16be r.rtype ++ u16be r.rclass ++
    u32be r.ttl ++ u16be r.rdlength ++ r.rdata

/-- First flags byte packed by DnsPacket.encode: QR, OPCODE, AA, TC, RD.
DnsQR.response has numeric value 1. -/
def flagsByte1 (QR OPCODE : Nat) (AA TC RD : Bool) : Nat :=
  (if QR == 1 then 128 else 0) ||| (OPCODE <<< 3) ||| (if AA then 4 else 0) |||
    (if TC then 2 else 0) ||| (if RD then 1 else 0)

/-- Second flags byte packed by DnsPacket.encode: RA, Z, RCODE. -/
def flagsByte2 (RA : Bool) (Z RCODE : Nat) : Nat :=
  (if RA then 128 else 0) ||| (Z <<< 4) ||| RCODE

/-- Modelled from the spec: DNSpy.enums.DnsOpCode is not under src; the
spec calls it a 4-bit enum with the query member, and the classic
members are query, iquery and status with codes 0, 1, 2.  The DnsOpCode
conversion in DnsPacket.parse raises ValueError outside the member
set. -/
def isOpCode (n : Nat) : Bool := n ≤ 2

/-- Modelled from the spec: DNSpy.enums.DnsResponseCode is not under
src; the spec calls it a 4-bit enum with the no_error member, and the
classic members are codes 0 through 5. -/
def isRCode (n : Nat) : Bool := n ≤ 5

/-- A DNS message.  QR is the numeric DnsQR value (query 0, response 1);
OPCODE and RCODE are the numeric enum values.  The Query versus
Response subclass chosen by DnsPacket.parse carries no data and is not
modelled. -/
structure DnsPacket where
  ID : Nat
  QR : Nat
  OPCODE : Nat
  AA : Bool
  TC : Bool
  RD : Bool
  RA : Bool
  Z : Nat
  RCODE : Nat
  QDCOUNT : Nat
  ANCOUNT : Nat
  NSCOUNT : Nat
  ARCOUNT : Nat
  questions : List DnsQuestion
  answers : List DnsRecord
  nameservers : List DnsRecord
  additional_records : List DnsRecord
  suffix : Bytes
  deriving Repr, DecidableEq

/-- Per-process state: the default transaction ID expression
random.getrandbits(16) in the def line of DnsPacket.__init__ is
evaluated once, when the class statement runs, and the sampled value is
shared by every later call that omits ID. -/
structure ProcessState where
  defaultID : Nat

/-- DnsPacket.__init__ with its optional arguments: a missing ID takes
the per-process default sample; missing counts take the lengths of the
corresponding section lists. -/
def DnsPacket.init (ps : ProcessState) (ID : Option Nat) (QR OPCODE : Nat)
    (AA TC RD RA : Bool) (Z RCODE : Nat)
    (QDCOUNT ANCOUNT NSCOUNT ARCOUNT : Option Nat)
    (questions : List DnsQuestion) (answers nameservers additional_records : List DnsRecord)
    (suffix : Bytes) : DnsPacket :=
  ⟨ID.getD ps.defaultID, QR, OPCODE, AA, TC, RD, RA, Z, RCODE,
    QDCOUNT.getD questions.length, ANCOUNT.getD answers.length,
    NSCOUNT.getD nameservers.length, ARCOUNT.getD additional_records.length,
    questions, answers, nameservers, additional_records, suffix⟩

/-- The questions loop of DnsPacket.parse: parse exactly the declared
number of questions.  Recursion is structural on the remaining count. -/
def parseQuestions (fuel : Nat) (data : Bytes) :
    Nat → Nat → List DnsQuestion → Res (List DnsQuestion × Nat)
  | 0, offset, acc => .ok (acc, offset)
  | n + 1, offset, acc =>
    match DnsQuestion.parse fuel data offset with
    | .ok (q, o) => parseQuestions fuel data n o (acc ++ [q])
    | .err e => .err e
    | .fuelOut => .fuelOut

/-- The record loop of DnsPacket.parse: run until the buffer is
exhausted, routing each record into answers, then nameservers, then
additional records, strictly by remaining count quota; raise once every
quota is full. -/
def recordsLoop (data : Bytes) (AN NSc AR : Nat) :
    Nat → Nat → List DnsRecord → List DnsRecord → List DnsRecord →
    Res (List DnsRecord × List DnsRecord × List DnsRecord × Nat)
  | 0, _, _, _, _ => .fuelOut
  | fuel + 1, offset, ans, nss, ars =>
    if offset < data.length then
      match DnsRecord.parse (fuel + 1) data offset with
      | .ok (rr, o) =>
        if ans.length < AN then recordsLoop data AN NSc AR fuel o (ans ++ [rr]) nss ars
        else if nss.length < NSc then recordsLoop data AN NSc AR fuel o ans (nss ++ [rr]) ars
        else if ars.length < AR then recordsLoop data AN NSc AR fuel o ans nss (ars ++ [rr])
        else .err .tooManyRecords
      | .err e => .err e
      | .fuelOut => .fuelOut
    else .ok (ans, nss, ars, offset)

/-- DnsPacket.parse (dns_packet.py lines 245-298), with the default
starting offset 12.  Header accesses follow the Python evaluation
order: the 16-bit ID unpack, byte 2, byte 3, then the four counts.  The
DnsQR conversion never fails on a one-bit value and is omitted; the
DnsOpCode and DnsResponseCode conversions fail outside their member
sets. -/
def DnsPacket.parse (fuel : Nat) (data : Bytes) : Res (DnsPacket × Nat) :=
  if 2 ≤ data.length then
    let ID := u16at data 0
    match data[2]? with
    | none => .err .indexError
    | some b2 =>
      let QR := (b2 &&& 128) >>> 7
      let OPCODE := (b2 &&& 120) >>> 3
      if isOpCode OPCODE then
        let AA := (b2 &&& 4) != 0
        let TC := (b2 &&& 2) != 0
        let RD := (b2 &&& 1) != 0
        match data[3]? with
        | none => .err .indexError
        | some b3 =>
          let RA := (b3 &&& 128) != 0
          let Z := (b3 &&& 112) >>> 4
          let RCODE := b3 &&& 15
          if isRCode RCODE then
            if 12 ≤ data.length then
              let QD := u16at data 4
              let AN := u16at data 6
              let NSc := u16at data 8
              let AR := u16at data 10
              match parseQuestions fuel data QD 12 [] with
              | .ok (questions, o1) =>
                match recordsLoop data AN NSc AR fuel o1 [] [] [] with
                | .ok (answers, nameservers, additional_records, o2) =>
                  if questions.length == QD && answers.length == AN &&
                      nameservers.length == NSc && additional_records.length == AR then
                    .ok (⟨ID, QR, OPCODE, AA, TC, RD, RA, Z, RCODE, QD, AN, NSc, AR,
                      questions, answers, nameservers, additional_records,
                      data.drop o2⟩, o2)
                  else .err .countMismatch
                | .err e => .err e
                | .fuelOut => .fuelOut
              | .err e => .err e
              | .fuelOut => .fuelOut
            else .err .structError
          else .err .valueError
      else .err .valueError
  else .err .structError

/-- DnsPacket.encode (dns_packet.py lines 300-328): the header is packed
from the stored count fields, then the four sections are concatenated.
The suffix field is never appended. -/
def DnsPacket.encode (m : DnsPacket) : Bytes :=
  u16be m.ID ++ [flagsByte1 m.QR m.OPCODE m.AA m.TC m.RD, flagsByte2 m.RA m.Z m.RCODE] ++
    u16be m.QDCOUNT ++ u16be m.ANCOUNT ++ u16be m.NSCOUNT ++ u16be m.ARCOUNT ++
    (m.questions.map DnsQuestion.encode).flatten ++
    (m.answers.map DnsRecord.encode).flatten ++
    (m.nameservers.map DnsRecord.encode).flatten ++
    (m.additional_records.map DnsRecord.encode).flatten

/-- Replace only the suffix field of a message. -/
def setSuffix (m : DnsPacket) (s : Bytes) : DnsPacket :=
  ⟨m.ID, m.QR, m.OPCODE, m.AA, m.TC, m.RD, m.RA, m.Z, m.RCODE, m.QDCOUNT,
    m.ANCOUNT, m.NSCOUNT, m.ARCOUNT, m.questions, m.answers, m.nameservers,
    m.additional_records, s⟩

/-- The DomainName constructor: an empty label list becomes the root
name. -/
def mkDomainName (labels : Name) : Name := if labels.isEmpty then [[]] else labels

/-- The str of a DomainName: its labels joined by the dot byte 46. -/
def nameStr : Name → List Nat
  | [] => []
  | [l] => l
  | l :: ls => l ++ 46 :: nameStr ls

/-- ASCII upper-casing of one byte, as str.upper acts on ASCII text. -/
def upperByte (b : Nat) : Nat := if 97 ≤ b ∧ b ≤ 122 then b - 32 else b

/-- Python hash of an ASCII string, modelled as an injective fold of the
byte values.  CPython uses a seeded SipHash; any injective stand-in is
faithful up to hash collisions, which the model abstracts away. -/
def pyHashN (s : List Nat) : Nat := s.foldl (fun a b => a * 1000 + (b + 1)) 0

/-- DomainName.__hash__: hash of the upper-cased dotted string. -/
def domHash (n : Name) : Nat := pyHashN ((nameStr n).map upperByte)

/-- DomainName.__eq__: comparison of the two hashes. -/
def domEq (a b : Name) : Bool := domHash a == domHash b

/-- A label acceptable to both sides of the codec: nonempty, shorter
than 64 bytes, within the letter, digit, hyphen charset. -/
def wfLabel (l : Label) : Bool := !l.isEmpty && decide (l.length < 64) && l.all allowedByte

/-- A name acceptable to both sides of the codec without compression:
either the root name or a nonempty list of acceptable labels whose
uncompressed encoding stays under 256 octets. -/
def wfName (n : Name) : Bool :=
  n == [[]] ||
    (!n.isEmpty && n.all wfLabel && decide ((DomainName.encode n).length < 256))

/-- A question whose encoding the codec reads back unchanged. -/
def wfQuestion (q : DnsQuestion) : Bool :=
  wfName q.name && decide (q.qtype < 65536) && decide (q.qclass < 65536)

/-- Payload discipline for records of a compression-eligible type: the
stored bytes are exactly an uncompressed encoding of what the type
handler parses, so that re-encoding reproduces them. -/
def wfRdataFor (t : Nat) (rdata : Bytes) : Prop :=
  if t == rtSOA then
    ∃ mn rn s1 s2 s3 s4, wfName mn = true ∧ wfName rn = true ∧
      s1 < 4294967296 ∧ s2 < 4294967296 ∧ s3 < 4294967296 ∧ s4 < 4294967296 ∧
      rdata = DomainName.encode mn ++ DomainName.encode rn ++
        u32be s1 ++ u32be s2 ++ u32be s3 ++ u32be s4
  else if isCompressionEligible t then
    ∃ nm, wfName nm = true ∧ rdata = DomainName.encode nm
  else True

/-- A record built programmatically (constructor discipline: rdlength
matches the payload, no attached compressed form) whose encoding the
codec reads back unchanged. -/
def wfRecord (r : DnsRecord) : Prop :=
  wfName r.name = true ∧ r.rtype < 65536 ∧ r.rclass < 65536 ∧ r.ttl < 4294967296 ∧
    r.rdlength = r.rdata.length ∧ r.rdata.length < 65536 ∧
    r.compressed_rdata = none ∧ wfRdataFor r.rtype r.rdata

/-- A message built from ASCII labels with names under 256 octets and no
compression pointers, with the invariants the constructor maintains:
enum fields in range, counts equal to section lengths, empty suffix. -/
def wfPacket (m : DnsPacket) : Prop :=
  m.ID < 65536 ∧ m.QR < 2 ∧ isOpCode m.OPCODE = true ∧ m.Z < 8 ∧ isRCode m.RCODE = true ∧
    m.QDCOUNT = m.questions.length ∧ m.ANCOUNT = m.answers.length ∧
    m.NSCOUNT = m.nameservers.length ∧ m.ARCOUNT = m.additional_records.length ∧
    m.questions.length < 65536 ∧ m.answers.length < 65536 ∧
    m.nameservers.length < 65536 ∧ m.additional_records.length < 65536 ∧
    (∀ q ∈ m.questions, wfQuestion q = true) ∧
    (∀ r ∈ m.answers, wfRecord r) ∧ (∀ r ∈ m.nameservers, wfRecord r) ∧
    (∀ r ∈ m.additional_records, wfRecord r) ∧ m.suffix = []

/-- Recursion budget ample for every terminating step of decoding the
uncompressed encoding of a message. -/
def msgFuel (m : DnsPacket) : Nat :=
  m.answers.length + m.nameservers.length + m.additional_records.length +
    m.encode.length + 300

/-- A buffer whose name encoding is a one-byte label followed by a
pointer back to that label: 01 61 C0 00.  DomainName.parse_from recurses
on itself without progress here. -/
def cycBuf : Bytes := [1, 97, 192, 0]

/-- Four 63-byte labels of the letter a and a terminator: 257 encoded
octets, while the sum of the bare label lengths is only 252. -/
def c4buf : Bytes := (List.replicate 4 (63 :: List.replicate 63 97)).flatten ++ [0]

/-- The name decoded from c4buf. -/
def c4name : Name := List.replicate 4 (List.replicate 63 97)

/-- A minimal header: ID 1, all flags and counts zero. -/
def buf12 : Bytes := [0, 1, 0, 0, 0, 0, 0, 0, 0, 0, 0, 0]

/-- The message decoded from buf12. -/
def msg12 : DnsPacket :=
  ⟨1, 0, 0, false, false, false, false, 0, 0, 0, 0, 0, 0, [], [], [], [], []⟩

/-- buf12 followed by one trailing zero byte of padding. -/
def bufTrail : Bytes := buf12 ++ [0]

/-- An eleven-byte record with root name, type 1, class 1, TTL 0 and an
empty payload. -/
def recBytes : Bytes := [0, 0, 1, 0, 1, 0, 0, 0, 0, 0, 0]

/-- Header declaring no records, followed by one record anyway. -/
def bufTooMany : Bytes := buf12 ++ recBytes

/-- Header declaring two answers, followed by only one record. -/
def bufTooFew : Bytes :=
  [0, 1, 0, 0, 0, 0, 0, 2, 0, 0, 0, 0] ++ recBytes

/-- Header declaring one answer and one nameserver record, followed by a
type 1 record and then a type 3 record. -/
def bufRoute : Bytes :=
  [0, 2, 0, 0, 0, 0, 0, 1, 0, 1, 0, 0] ++ recBytes ++
    [0, 0, 3, 0, 1, 0, 0, 0, 0, 0, 0]

/-- The message decoded from bufRoute: the first record fills the answer
quota, the second falls through to the nameserver quota. -/
def msgRoute : DnsPacket :=
  ⟨2, 0, 0, false, false, false, false, 0, 0, 0, 1, 1, 0, [],
    [⟨[[]], 1, 1, 0, 0, [], none⟩], [⟨[[]], 3, 1, 0, 0, [], none⟩], [], []⟩

/-- A name (the label a) at offset 0, then at offset 3 a CNAME record
with root owner name whose two-byte payload is a compression pointer to
offset 0. -/
def bufC7 : Bytes :=
  [1, 97, 0, 0, 0, 5, 0, 1, 0, 0, 0, 0, 0, 2, 192, 0]

/-- A packet whose stored QDCOUNT is 5 although it holds no questions. -/
def pkt3 : DnsPacket :=
  ⟨7, 0, 0, false, false, false, false, 0, 0, 5, 0, 0, 0, [], [], [], [], []⟩

/-- The labels Example, COM by byte value. -/
def exName1 : Name := [[69, 120, 97, 109, 112, 108, 101], [67, 79, 77]]

/-- The labels example, com by byte value. -/
def exName2 : Name := [[101, 120, 97, 109, 112, 108, 101], [99, 111, 109]]

/-- A one-question message (name a, type 1, class 1) used to exercise
the round trip. -/
def msgW : DnsPacket :=
  ⟨1, 0, 0, false, false, false, false, 0, 0, 1, 0, 0, 0,
    [⟨[[97]], 1, 1⟩], [], [], [], []⟩

/-! ## Helper lemmas -/

theorem cyc_aux : ∀ n, parseLoop n cycBuf 0 [] = .fuelOut ∧
    parseLoop n cycBuf 2 [[97]] = .fuelOut := by
  intro n
  induction n with
  | zero => exact ⟨rfl, rfl⟩
  | succ n ih =>
    refine ⟨?_, ?_⟩
    · simpa [parseLoop, cycBuf] using ih.2
    · have hptr : (192 &&& 63) <<< 8 = 0 := by decide
      have h1 := ih.1
      simp only [cycBuf] at h1
      simp [parseLoop, cycBuf, hptr, h1]

/-! ## C1 -/

/-- C1: the claim says the pointer-decompression recursion of
DomainName.parse_from is hard-bounded and terminates on every buffer.
On the buffer 01 61 C0 00 (a label followed by a pointer back to that
label) the code instead recurses forever: at every recursion budget the
embedded parser is still running.  The only guard, the
pointer-to-pointer assertion, accepts this cycle because the pointer
target is a plain label byte. -/
theorem c1_parse_from_diverges_on_cycle : ∀ fuel, parse_from fuel cycBuf 0 = .fuelOut := by
  intro fuel
  unfold parse_from
  rw [(cyc_aux fuel).1]

/-! ## C4 -/

set_option maxRecDepth 8000 in
/-- C4: the claim says the running length check counts the length-prefix
bytes and fires at 256 or more encoded octets.  The code checks only the
sum of the bare label lengths: this buffer of four 63-byte labels has
257 encoded octets yet parses successfully. -/
theorem c4_length_check_misses_prefix_bytes :
    parse_from 300 c4buf 0 = .ok (c4name, 257) ∧
      256 ≤ (DomainName.encode c4name).length := by
  exact ⟨by decide, by decide⟩

/-! ## C8 -/

/-- C8: a compression pointer whose target byte has its top two bits set
is rejected with the pointer-to-pointer error, and a pointer whose
target byte is a plain label length is followed (shown on a concrete
buffer whose pointer target is the label a). -/
theorem c8_pointer_to_pointer_rejected :
    (∀ fuel data offset b b2 tb,
      data[offset]? = some b → 192 ≤ b →
      data[offset + 1]? = some b2 →
      data[(((b &&& 63) <<< 8) ||| b2)]? = some tb → 192 ≤ tb →
      parse_from (fuel + 1) data offset = .err .ptrToPtr) ∧
    parse_from 10 [1, 97, 0, 192, 0] 3 = .ok ([[97]], 5) := by
  refine ⟨?_, by decide⟩
  intro fuel data offset b b2 tb h1 h2 h3 h4 h5
  have hb0 : (b == 0) = false := by simp; omega
  have hb64 : ¬ b < 64 := by omega
  have htb : ¬ tb < 64 := by omega
  simp [parse_from, parseLoop, h1, hb0, hb64, h2, h3, h4, htb]

/-- Witness for C8: the self-pointing buffer C0 00 fails with the
pointer-to-pointer error. -/
theorem c8_witness : parse_from 5 [192, 0] 0 = .err .ptrToPtr :=
  c8_pointer_to_pointer_rejected.1 4 [192, 0] 0 192 0 192 rfl (by omega) rfl
    (by decide) (by omega)

/-! ## C10 -/

/-- C10: the default transaction ID is sampled once per process, when
the class body is evaluated; two packets constructed without an explicit
ID in the same process therefore carry the same ID, whatever their other
arguments. -/
theorem c10_default_id_shared : ∀ (ps : ProcessState)
    (QRa OPa : Nat) (AAa TCa RDa RAa : Bool) (Za RCa : Nat)
    (qda ana nsa ara : Option Nat) (qsa : List DnsQuestion)
    (ansa nssa arsa : List DnsRecord) (sfa : Bytes)
    (QRb OPb : Nat) (AAb TCb RDb RAb : Bool) (Zb RCb : Nat)
    (qdb anb nsb arb : Option Nat) (qsb : List DnsQuestion)
    (ansb nssb arsb : List DnsRecord) (sfb : Bytes),
    (DnsPacket.init ps none QRa OPa AAa TCa RDa RAa Za RCa qda ana nsa ara
      qsa ansa nssa arsa sfa).ID =
    (DnsPacket.init ps none QRb OPb AAb TCb RDb RAb Zb RCb qdb anb nsb arb
      qsb ansb nssb arsb sfb).ID := by
  intros
  simp [DnsPacket.init]

/-! ## C9 -/

theorem pyHashN_append_singleton (s : List Nat) (a : Nat) :
    pyHashN (s ++ [a]) = pyHashN s * 1000 + (a + 1) := by
  simp [pyHashN, List.foldl_append]

theorem pyHashN_inj : ∀ s t : List Nat, (∀ x ∈ s, x < 999) → (∀ x ∈ t, x < 999) →
    pyHashN s = pyHashN t → s = t := by
  intro s
  induction s using List.reverseRecOn with
  | nil =>
    intro t _ ht h
    induction t using List.reverseRecOn with
    | nil => rfl
    | append_singleton t b _ =>
      rw [pyHashN_append_singleton] at h
      have : pyHashN [] = 0 := rfl
      omega
  | append_singleton s a ih =>
    intro t hs ht h
    induction t using List.reverseRecOn with
    | nil =>
      rw [pyHashN_append_singleton] at h
      have : pyHashN [] = 0 := rfl
      omega
    | append_singleton t b _ =>
      rw [pyHashN_append_singleton, pyHashN_append_singleton] at h
      have ha : a < 999 := hs a (by simp)
      have hb : b < 999 := ht b (by simp)
      have hab : a = b := by omega
      have hst : pyHashN s = pyHashN t := by omega
      have := ih t (fun x hx => hs x (by simp [hx])) (fun x hx => ht x (by simp [hx])) hst
      rw [this, hab]

theorem mem_nameStr : ∀ (n : Name) (x : Nat), x ∈ nameStr n → x = 46 ∨ ∃ l ∈ n, x ∈ l := by
  intro n
  induction n with
  | nil => intro x hx; simp [nameStr] at hx
  | cons l ls ih =>
    intro x hx
    cases ls with
    | nil =>
      simp only [nameStr] at hx
      exact Or.inr ⟨l, by simp, hx⟩
    | cons l2 ls2 =>
      simp only [nameStr, List.mem_append, List.mem_cons] at hx
      rcases hx with h | h | h
      · exact Or.inr ⟨l, by simp, h⟩
      · exact Or.inl h
      · rcases ih x h with h46 | ⟨l3, hl3, hxl3⟩
        · exact Or.inl h46
        · exact Or.inr ⟨l3, by simp [hl3], hxl3⟩

theorem upperByte_lt (b : Nat) (h : b < 256) : upperByte b < 256 := by
  unfold upperByte
  split <;> omega

/-- C9: DomainName equality compares the hashes of the upper-cased
dotted forms; with the hash modelled injectively, two names are equal
exactly when their dot-joined label strings agree up to ASCII case, and
in particular the names Example.COM and example.com are equal. -/
theorem c9_name_equality_case_insensitive :
    (∀ a b : Name, (∀ l ∈ a, ∀ c ∈ l, c < 256) → (∀ l ∈ b, ∀ c ∈ l, c < 256) →
      (domEq a b = true ↔ (nameStr a).map upperByte = (nameStr b).map upperByte)) ∧
    domEq (mkDomainName exName1) (mkDomainName exName2) = true := by
  refine ⟨?_, by decide⟩
  intro a b ha hb
  have bound : ∀ (n : Name), (∀ l ∈ n, ∀ c ∈ l, c < 256) →
      ∀ x ∈ (nameStr n).map upperByte, x < 999 := by
    intro n hn x hx
    obtain ⟨y, hy, rfl⟩ := List.mem_map.mp hx
    rcases mem_nameStr n y hy with rfl | ⟨l, hl, hyl⟩
    · decide
    · have := upperByte_lt y (hn l hl y hyl)
      omega
  constructor
  · intro h
    have hh : domHash a = domHash b := by
      simpa [domEq] using h
    exact pyHashN_inj _ _ (bound a ha) (bound b hb) hh
  · intro h
    simp [domEq, domHash, h]

/-- Witness for C9: the equality criterion applied to the concrete pair
Example.COM and example.com. -/
theorem c9_witness :
    domEq exName1 exName2 = true ↔
      (nameStr exName1).map upperByte = (nameStr exName2).map upperByte :=
  c9_name_equality_case_insensitive.1 exName1 exName2 (by decide) (by decide)

/-! ## C3 -/

/-- Counterexample for C3: a packet whose stored QDCOUNT is 5 while it
holds no questions encodes the byte pair 0 5 into the QDCOUNT field, so
the emitted count is the stored field, not the section length the claim
promises. -/
theorem c3_cex_stored_count_emitted :
    u16at pkt3.encode 4 = 5 ∧ pkt3.questions.length = 0 ∧
      u16at pkt3.encode 4 ≠ pkt3.questions.length := by
  refine ⟨by decide, by decide, by decide⟩

/-- C3 amended: DnsPacket.encode packs the four count fields of the
header from the stored QDCOUNT, ANCOUNT, NSCOUNT and ARCOUNT attributes;
these default to the section lengths only when the constructor is called
without explicit counts. -/
theorem c3_encode_uses_stored_counts :
    (∀ m : DnsPacket, m.QDCOUNT < 65536 → m.ANCOUNT < 65536 →
      m.NSCOUNT < 65536 → m.ARCOUNT < 65536 →
      u16at m.encode 4 = m.QDCOUNT ∧ u16at m.encode 6 = m.ANCOUNT ∧
        u16at m.encode 8 = m.NSCOUNT ∧ u16at m.encode 10 = m.ARCOUNT) ∧
    (∀ (ps : ProcessState) (ID : Option Nat) (QR OP : Nat) (AA TC RD RA : Bool)
      (Z RC : Nat) (qs : List DnsQuestion) (ans nss ars : List DnsRecord) (sf : Bytes),
      (DnsPacket.init ps ID QR OP AA TC RD RA Z RC none none none none
        qs ans nss ars sf).QDCOUNT = qs.length ∧
      (DnsPacket.init ps ID QR OP AA TC RD RA Z RC none none none none
        qs ans nss ars sf).ANCOUNT = ans.length ∧
      (DnsPacket.init ps ID QR OP AA TC RD RA Z RC none none none none
        qs ans nss ars sf).NSCOUNT = nss.length ∧
      (DnsPacket.init ps ID QR OP AA TC RD RA Z RC none none none none
        qs ans nss ars sf).ARCOUNT = ars.length) := by
  constructor
  · intro m h1 h2 h3 h4
    refine ⟨?_, ?_, ?_, ?_⟩ <;>
      (simp [DnsPacket.encode, u16be, u16at, rdByte, flagsByte1, flagsByte2]; omega)
  · intro ps ID QR OP AA TC RD RA Z RC qs ans nss ars sf
    simp [DnsPacket.init]

/-- Witness for C3: the amended statement applied to the concrete packet
pkt3. -/
theorem c3_witness :
    u16at pkt3.encode 4 = pkt3.QDCOUNT ∧ u16at pkt3.encode 6 = pkt3.ANCOUNT ∧
      u16at pkt3.encode 8 = pkt3.NSCOUNT ∧ u16at pkt3.encode 10 = pkt3.ARCOUNT :=
  c3_encode_uses_stored_counts.1 pkt3 (by decide) (by decide) (by decide) (by decide)

/-! ## C7 -/

/-- C7: after the fixed record header, the rdlength-byte raw slice is
taken; for a compression-eligible type the payload is re-decoded from
the full buffer at the rdata offset and re-encoded, and the record keeps
the raw slice as primary RDATA exactly when the re-encoding reproduces
it, otherwise the re-encoding becomes the primary RDATA and the raw
slice is retained as the attached compressed form; for any other type
the raw slice is kept with nothing attached. -/
theorem c7_eligible_rdata_normalized :
    ∀ fuel data offset nm o1 rtype rclass ttl rdlength raw,
      parse_from fuel data offset = .ok (nm, o1) →
      o1 + 10 ≤ data.length →
      rtype = u16at data o1 →
      rclass = u16at data (o1 + 2) →
      ttl = u32at data (o1 + 4) →
      rdlength = u16at data (o1 + 8) →
      raw = (data.drop (o1 + 10)).take rdlength →
      raw.length = rdlength →
      ((isCompressionEligible rtype = true →
        ∀ unc, reencodeRData fuel rtype data (o1 + 10) = .ok unc →
          DnsRecord.parse fuel data offset =
            .ok ((if unc = raw then DnsRecord.init nm rtype rclass ttl raw
              else ⟨nm, rtype, rclass, ttl, unc.length, unc, some raw⟩),
              o1 + 10 + rdlength)) ∧
      (isCompressionEligible rtype = false →
        DnsRecord.parse fuel data offset =
          .ok (DnsRecord.init nm rtype rclass ttl raw, o1 + 10 + rdlength))) := by
  intro fuel data offset nm o1 rtype rclass ttl rdlength raw
  intro hpf hlen10 hrt hrc httl hrdl hraw hrawlen
  subst hrt hrc httl hrdl hraw
  constructor
  · intro helig unc hunc
    by_cases hu : unc = (data.drop (o1 + 10)).take (u16at data (o1 + 8))
    · simp [DnsRecord.parse, hpf, hlen10, hrawlen, helig, hunc, hu]
    · simp [DnsRecord.parse, hpf, hlen10, hrawlen, helig, hunc, hu]
  · intro helig
    simp [DnsRecord.parse, hpf, hlen10, hrawlen, helig]

/-- Witness for C7: on bufC7 the CNAME payload C0 00 is a pointer to the
name a, so the record is normalized to the uncompressed payload 01 61 00
with the original two compressed bytes attached. -/
theorem c7_witness :
    DnsRecord.parse 10 bufC7 3 =
      .ok (⟨[[]], 5, 1, 0, 3, [1, 97, 0], some [192, 0]⟩, 16) := by
  have h := (c7_eligible_rdata_normalized 10 bufC7 3 [[]] 4 5 1 0 2 [192, 0]
      (by decide) (by decide) (by decide) (by decide) (by decide) (by decide)
      (by decide) (by decide)).1 (by decide) [1, 97, 0] (by decide)
  rw [if_neg (by decide)] at h
  exact h

/-! ## Offset bounds: every successful parse ends inside the buffer -/

theorem getElem?_lt {data : Bytes} {i b : Nat} (h : data[i]? = some b) :
    i < data.length := by
  by_contra hc
  rw [List.getElem?_eq_none (by omega)] at h
  exact Option.noConfusion h

theorem parseLoop_le : ∀ fuel data off seq s o,
    parseLoop fuel data off seq = .ok (s, o) → o ≤ data.length := by
  intro fuel
  induction fuel with
  | zero => intro data off seq s o h; exact absurd h (by simp [parseLoop])
  | succ f ih =>
    intro data off seq s o h
    rw [parseLoop] at h
    split at h
    · simp at h
    · rename_i b hb
      have hoff : off < data.length := getElem?_lt hb
      split at h
      · simp only [Res.ok.injEq, Prod.mk.injEq] at h
        omega
      · split at h
        · dsimp only at h
          split at h
          · split at h
            · split at h
              · exact ih data _ _ s o h
              · simp at h
            · simp at h
          · simp at h
        · split at h
          · split at h
            · simp at h
            · rename_i b2 hb2
              have hoff2 : off + 1 < data.length := getElem?_lt hb2
              dsimp only at h
              split at h
              · simp at h
              · split at h
                · split at h
                  · simp only [Res.ok.injEq, Prod.mk.injEq] at h
                    omega
                  · simp at h
                  · simp at h
                · simp at h
          · simp at h

theorem parse_from_le (fuel : Nat) (data : Bytes) (off : Nat) (nm : Name) (o : Nat)
    (h : parse_from fuel data off = .ok (nm, o)) : o ≤ data.length := by
  unfold parse_from at h
  split at h
  · rename_i seq o2 heq
    simp only [Res.ok.injEq, Prod.mk.injEq] at h
    exact h.2 ▸ parseLoop_le fuel data off [] seq o2 heq
  · simp at h
  · simp at h

theorem question_parse_le (fuel : Nat) (data : Bytes) (off : Nat) (q : DnsQuestion)
    (o : Nat) (h : DnsQuestion.parse fuel data off = .ok (q, o)) : o ≤ data.length := by
  unfold DnsQuestion.parse at h
  split at h
  · split at h
    · rename_i name o1 heq hle
      simp only [Res.ok.injEq, Prod.mk.injEq] at h
      omega
    · simp at h
  · simp at h
  · simp at h

theorem record_parse_le (fuel : Nat) (data : Bytes) (off : Nat) (r : DnsRecord)
    (o : Nat) (h : DnsRecord.parse fuel data off = .ok (r, o)) : o ≤ data.length := by
  unfold DnsRecord.parse at h
  split at h
  · rename_i nm o1 heq
    dsimp only at h
    split at h
    · rename_i hlen10
      split at h
      · rename_i hslice
        simp only [beq_iff_eq] at hslice
        have hbound : o1 + 10 + u16at data (o1 + 8) ≤ data.length := by
          rw [List.length_take, List.length_drop] at hslice
          omega
        split at h
        · split at h
          · split at h
            · simp only [Res.ok.injEq, Prod.mk.injEq] at h
              omega
            · simp only [Res.ok.injEq, Prod.mk.injEq] at h
              omega
          · simp at h
          · simp at h
        · simp only [Res.ok.injEq, Prod.mk.injEq] at h
          omega
      · simp at h
    · simp at h
  · simp at h
  · simp at h

theorem parseQuestions_le : ∀ (n fuel : Nat) (data : Bytes) (off : Nat)
    (acc qs : List DnsQuestion) (o : Nat), off ≤ data.length →
    parseQuestions fuel data n off acc = .ok (qs, o) → o ≤ data.length := by
  intro n
  induction n with
  | zero =>
    intro fuel data off acc qs o hoff h
    simp only [parseQuestions, Res.ok.injEq, Prod.mk.injEq] at h
    omega
  | succ k ih =>
    intro fuel data off acc qs o hoff h
    rw [parseQuestions] at h
    split at h
    · rename_i q o1 heq
      exact ih fuel data o1 _ qs o (question_parse_le fuel data off q o1 heq) h
    · simp at h
    · simp at h

theorem recordsLoop_end : ∀ (fuel : Nat) (data : Bytes) (AN NSc AR off : Nat)
    (ans nss ars A B C : List DnsRecord) (o : Nat), off ≤ data.length →
    recordsLoop data AN NSc AR fuel off ans nss ars = .ok (A, B, C, o) →
    o = data.length := by
  intro fuel
  induction fuel with
  | zero =>
    intro data AN NSc AR off ans nss ars A B C o hoff h
    exact absurd h (by simp [recordsLoop])
  | succ f ih =>
    intro data AN NSc AR off ans nss ars A B C o hoff h
    rw [recordsLoop] at h
    split at h
    · split at h
      · rename_i hlt rr o1 heq
        have ho1 : o1 ≤ data.length := record_parse_le (f + 1) data off rr o1 heq
        split at h
        · exact ih data AN NSc AR o1 _ _ _ A B C o ho1 h
        · split at h
          · exact ih data AN NSc AR o1 _ _ _ A B C o ho1 h
          · split at h
            · exact ih data AN NSc AR o1 _ _ _ A B C o ho1 h
            · simp at h
      · simp at h
      · simp at h
    · rename_i hlt
      simp only [Res.ok.injEq, Prod.mk.injEq] at h
      omega

theorem parse_ok_shape : ∀ fuel data m o, DnsPacket.parse fuel data = .ok (m, o) →
    m.suffix = [] ∧ o = data.length ∧
      m.questions.length = m.QDCOUNT ∧ m.answers.length = m.ANCOUNT ∧
      m.nameservers.length = m.NSCOUNT ∧ m.additional_records.length = m.ARCOUNT := by
  intro fuel data m o h
  unfold DnsPacket.parse at h
  split at h
  · rename_i hlen2
    dsimp only at h
    split at h
    · simp at h
    · rename_i b2 hb2
      split at h
      · split at h
        · simp at h
        · rename_i b3 hb3
          split at h
          · split at h
            · rename_i hlen12
              split at h
              · rename_i qs o1 hq
                split at h
                · rename_i ans nss ars o2 hr
                  split at h
                  · rename_i hc
                    simp only [Bool.and_eq_true, beq_iff_eq] at hc
                    simp only [Res.ok.injEq, Prod.mk.injEq] at h
                    obtain ⟨hm, ho⟩ := h
                    have ho1 : o1 ≤ data.length :=
                      parseQuestions_le _ fuel data 12 [] qs o1 (by omega) hq
                    have ho2 : o2 = data.length :=
                      recordsLoop_end fuel data _ _ _ o1 [] [] [] ans nss ars o2 ho1 hr
                    subst hm
                    refine ⟨?_, by omega, ?_, ?_, ?_, ?_⟩
                    · simp [ho2, List.drop_length]
                    · simpa using hc.1.1.1
                    · simpa using hc.1.1.2
                    · simpa using hc.1.2
                    · simpa using hc.2
                  · simp at h
                · simp at h
                · simp at h
              · simp at h
              · simp at h
            · simp at h
          · simp at h
      · simp at h
  · simp at h

/-! ## C2 -/

/-- Counterexample for C2: buf12 decodes with every declared count
already satisfied at offset 12, yet appending one trailing padding byte
makes decoding fail instead of storing the byte in the suffix field: the
record loop runs on buffer position, not on counts, and tries to parse
the padding as a record. -/
theorem c2_cex_trailing_byte_rejected :
    DnsPacket.parse 20 buf12 = .ok (msg12, 12) ∧ bufTrail = buf12 ++ [0] ∧
      DnsPacket.parse 20 bufTrail = .err .structError := by
  refine ⟨by decide, by decide, by decide⟩

/-- C2 amended: the record loop of DnsPacket.parse runs until the buffer
is exhausted, so every successful decode ends exactly at the buffer end
and stores an empty suffix; bytes after the declared records are parsed
as further records and fail.  DnsPacket.encode never appends the
suffix field. -/
theorem c2_suffix_always_empty :
    (∀ fuel data m o, DnsPacket.parse fuel data = .ok (m, o) →
      m.suffix = [] ∧ o = data.length) ∧
    (∀ m s, (setSuffix m s).encode = m.encode) := by
  constructor
  · intro fuel data m o h
    have := parse_ok_shape fuel data m o h
    exact ⟨this.1, this.2.1⟩
  · intro m s
    simp [setSuffix, DnsPacket.encode]

/-- Witness for C2: the amended statement applied to the successful
decode of buf12. -/
theorem c2_witness : msg12.suffix = [] ∧ 12 = buf12.length :=
  c2_suffix_always_empty.1 20 buf12 msg12 12 (by decide)

/-! ## C5 -/

/-- C5: records are routed into answers, nameservers and additional
records in that fixed order by remaining quota (demonstrated on
bufRoute), a record arriving with every quota full is a too-many-records
error (bufTooMany), a buffer exhausted before the declared counts are
reached is a count-mismatch error (bufTooFew), and every successfully
decoded message has its four section lengths equal to its four header
counts. -/
theorem c5_counts_enforced :
    (∀ fuel data m o, DnsPacket.parse fuel data = .ok (m, o) →
      m.questions.length = m.QDCOUNT ∧ m.answers.length = m.ANCOUNT ∧
        m.nameservers.length = m.NSCOUNT ∧ m.additional_records.length = m.ARCOUNT) ∧
    DnsPacket.parse 50 bufTooMany = .err .tooManyRecords ∧
    DnsPacket.parse 50 bufTooFew = .err .countMismatch ∧
    DnsPacket.parse 60 bufRoute = .ok (msgRoute, 34) := by
  refine ⟨?_, by decide, by decide, by decide⟩
  intro fuel data m o h
  exact (parse_ok_shape fuel data m o h).2.2

/-- Witness for C5: the count equalities on the successful decode of
buf12. -/
theorem c5_witness :
    msg12.questions.length = msg12.QDCOUNT ∧ msg12.answers.length = msg12.ANCOUNT ∧
      msg12.nameservers.length = msg12.NSCOUNT ∧
      msg12.additional_records.length = msg12.ARCOUNT :=
  c5_counts_enforced.1 20 buf12 msg12 12 (by decide)

/-! ## Reading back an uncompressed encoding, whatever surrounds it -/

theorem getElem?_append_cons (pre rest : Bytes) (x : Nat) :
    (pre ++ x :: rest)[pre.length]? = some x := by
  rw [List.getElem?_append_right (Nat.le_refl pre.length)]
  simp

theorem drop_append_cons (pre rest : Bytes) (x : Nat) :
    (pre ++ x :: rest).drop (pre.length + 1) = rest := by
  have h : pre ++ x :: rest = (pre ++ [x]) ++ rest := by simp
  have h2 : pre.length + 1 = (pre ++ [x]).length := by simp
  rw [h, h2, List.drop_left]

theorem rdByte_append (pre rest : Bytes) (x : Nat) :
    rdByte (pre ++ x :: rest) pre.length = x := by
  rw [rdByte, getElem?_append_cons]
  rfl

theorem u16at_pre (pre rest : Bytes) (nv : Nat) (h : nv < 65536) :
    u16at (pre ++ u16be nv ++ rest) pre.length = nv := by
  have e : pre ++ u16be nv ++ rest =
      pre ++ (nv / 256 % 256) :: (nv % 256) :: rest := by
    simp [u16be]
  have e2 : pre ++ (nv / 256 % 256) :: (nv % 256) :: rest =
      (pre ++ [nv / 256 % 256]) ++ (nv % 256) :: rest := by simp
  rw [e, u16at, rdByte_append]
  have h1 : rdByte (pre ++ (nv / 256 % 256) :: (nv % 256) :: rest) (pre.length + 1) =
      nv % 256 := by
    have h3 : pre.length + 1 = (pre ++ [nv / 256 % 256]).length := by simp
    rw [e2, h3, rdByte_append]
  rw [h1]
  omega

theorem u32at_pre (pre rest : Bytes) (nv : Nat) (h : nv < 4294967296) :
    u32at (pre ++ u32be nv ++ rest) pre.length = nv := by
  have e : pre ++ u32be nv ++ rest =
      pre ++ (nv / 16777216 % 256) :: (nv / 65536 % 256) :: (nv / 256 % 256) ::
        (nv % 256) :: rest := by
    simp [u32be]
  rw [e, u32at, rdByte_append]
  have h1 : rdByte (pre ++ (nv / 16777216 % 256) :: (nv / 65536 % 256) ::
      (nv / 256 % 256) :: (nv % 256) :: rest) (pre.length + 1) = nv / 65536 % 256 := by
    have e2 : pre ++ (nv / 16777216 % 256) :: (nv / 65536 % 256) :: (nv / 256 % 256) ::
        (nv % 256) :: rest = (pre ++ [nv / 16777216 % 256]) ++ (nv / 65536 % 256) ::
        (nv / 256 % 256) :: (nv % 256) :: rest := by simp
    have h3 : pre.length + 1 = (pre ++ [nv / 16777216 % 256]).length := by simp
    rw [e2, h3, rdByte_append]
  have h2 : rdByte (pre ++ (nv / 16777216 % 256) :: (nv / 65536 % 256) ::
      (nv / 256 % 256) :: (nv % 256) :: rest) (pre.length + 2) = nv / 256 % 256 := by
    have e2 : pre ++ (nv / 16777216 % 256) :: (nv / 65536 % 256) :: (nv / 256 % 256) ::
        (nv % 256) :: rest = (pre ++ [nv / 16777216 % 256, nv / 65536 % 256]) ++
        (nv / 256 % 256) :: (nv % 256) :: rest := by simp
    have h3 : pre.length + 2 = (pre ++ [nv / 16777216 % 256, nv / 65536 % 256]).length := by
      simp
    rw [e2, h3, rdByte_append]
  have h4 : rdByte (pre ++ (nv / 16777216 % 256) :: (nv / 65536 % 256) ::
      (nv / 256 % 256) :: (nv % 256) :: rest) (pre.length + 3) = nv % 256 := by
    have e2 : pre ++ (nv / 16777216 % 256) :: (nv / 65536 % 256) :: (nv / 256 % 256) ::
        (nv % 256) :: rest = (pre ++ [nv / 16777216 % 256, nv / 65536 % 256,
        nv / 256 % 256]) ++ (nv % 256) :: rest := by simp
    have h3 : pre.length + 3 = (pre ++ [nv / 16777216 % 256, nv / 65536 % 256,
        nv / 256 % 256]).length := by simp
    rw [e2, h3, rdByte_append]
  rw [show pre.length + 1 + 1 = pre.length + 2 by omega] at h2
  rw [show pre.length + 1 + 1 + 1 = pre.length + 3 by omega] at h4
  rw [h1, h2, h4]
  omega

theorem allowedByte_lt (c : Nat) (h : allowedByte c = true) : c < 128 := by
  simp only [allowedByte, Bool.or_eq_true, Bool.and_eq_true, decide_eq_true_eq,
    beq_iff_eq] at h
  omega

theorem wfLabel_spec (l : Label) (h : wfLabel l = true) :
    l ≠ [] ∧ l.length < 64 ∧ l.all allowedByte = true ∧
      l.all (fun c => decide (c < 128)) = true := by
  simp only [wfLabel, Bool.and_eq_true, Bool.not_eq_true',
    decide_eq_true_eq] at h
  refine ⟨?_, h.1.2, h.2, ?_⟩
  · intro hnil
    subst hnil
    simpa using h.1.1
  · rw [List.all_eq_true] at h ⊢
    intro c hc
    exact decide_eq_true (allowedByte_lt c (h.2 c hc))

theorem encode_length_of_nonempty : ∀ (n : Name), (∀ l ∈ n, wfLabel l = true) →
    (DomainName.encode n).length = (n.map List.length).sum + n.length + 1 := by
  intro n
  induction n with
  | nil => intro _; simp [DomainName.encode]
  | cons l ls ih =>
    intro hw
    have hl := wfLabel_spec l (hw l (by simp))
    rw [DomainName.encode, if_neg (by simpa using hl.1)]
    simp only [List.length_append, List.length_cons, List.map_cons, List.sum_cons]
    rw [ih (fun x hx => hw x (by simp [hx]))]
    omega

theorem wfName_cases (n : Name) (h : wfName n = true) :
    n = [[]] ∨ (n ≠ [] ∧ (∀ l ∈ n, wfLabel l = true) ∧
      (DomainName.encode n).length < 256) := by
  simp only [wfName, Bool.or_eq_true, Bool.and_eq_true, Bool.not_eq_true',
    decide_eq_true_eq, beq_iff_eq] at h
  rcases h with h | h
  · exact Or.inl h
  · refine Or.inr ⟨?_, ?_, h.2⟩
    · intro hnil
      subst hnil
      simpa using h.1.1
    · rw [← List.all_eq_true]
      exact h.1.2

theorem wfName_len (n : Name) (h : wfName n = true) : n.length + 1 ≤ 256 := by
  rcases wfName_cases n h with rfl | ⟨hne, hw, hlen⟩
  · simp
  · rw [encode_length_of_nonempty n hw] at hlen
    omega

theorem parseLoop_zero (f : Nat) (data : Bytes) (off : Nat) (seq : Name)
    (hb : data[off]? = some 0) : parseLoop (f + 1) data off seq = .ok (seq, off + 1) := by
  simp [parseLoop, hb]

theorem parseLoop_label (f : Nat) (data : Bytes) (off : Nat) (seq : Name) (b : Nat)
    (hb : data[off]? = some b) (hb0 : b ≠ 0) (hb64 : b < 64)
    (ha : ((data.drop (off + 1)).take b).all (fun c => decide (c < 128)) = true)
    (hc : ((data.drop (off + 1)).take b).all allowedByte = true)
    (hs : ((seq ++ [(data.drop (off + 1)).take b]).map List.length).sum < 256) :
    parseLoop (f + 1) data off seq =
      parseLoop f data (off + b + 1) (seq ++ [(data.drop (off + 1)).take b]) := by
  simp [parseLoop, hb, hb0, hb64, ha, hc]
  intro hcontra
  simp at hs
  omega

theorem parseLoop_encode : ∀ (labels : Name) (pre post : Bytes) (seq : Name) (fuel : Nat),
    (∀ l ∈ labels, wfLabel l = true) →
    ((seq ++ labels).map List.length).sum < 256 →
    labels.length + 1 ≤ fuel →
    parseLoop fuel (pre ++ DomainName.encode labels ++ post) pre.length seq =
      .ok (seq ++ labels, pre.length + (DomainName.encode labels).length) := by
  intro labels
  induction labels with
  | nil =>
    intro pre post seq fuel _ _ hf
    obtain ⟨f, rfl⟩ : ∃ f, fuel = f + 1 := ⟨fuel - 1, by omega⟩
    have e : pre ++ DomainName.encode [] ++ post = pre ++ 0 :: post := by
      simp [DomainName.encode]
    rw [e, parseLoop_zero f _ _ _ (getElem?_append_cons pre post 0)]
    simp [DomainName.encode]
  | cons l ls ih =>
    intro pre post seq fuel hw hsum hf
    obtain ⟨f, rfl⟩ : ∃ f, fuel = f + 1 := ⟨fuel - 1, by omega⟩
    have hl := wfLabel_spec l (hw l (by simp))
    have henc : DomainName.encode (l :: ls) = l.length :: (l ++ DomainName.encode ls) := by
      rw [DomainName.encode, if_neg (by simpa using hl.1)]
      simp
    have e : pre ++ DomainName.encode (l :: ls) ++ post =
        pre ++ l.length :: (l ++ (DomainName.encode ls ++ post)) := by
      rw [henc]; simp
    have hslice : (((pre ++ l.length :: (l ++ (DomainName.encode ls ++ post)))).drop
        (pre.length + 1)).take l.length = l := by
      rw [drop_append_cons]
      exact List.take_left l _
    have hlen0 : l.length ≠ 0 := by
      intro hz
      exact hl.1 (List.eq_nil_of_length_eq_zero hz)
    have hsum2 : (((seq ++ [l]) ++ ls).map List.length).sum < 256 := by
      rw [List.append_assoc]
      simpa using hsum
    have hsum1 : ((seq ++ [l]).map List.length).sum < 256 := by
      simp only [List.map_append, List.sum_append] at hsum2 ⊢
      omega
    rw [e, parseLoop_label f _ _ _ _ (getElem?_append_cons pre _ l.length) hlen0 hl.2.1
      (by rw [hslice]; exact hl.2.2.2) (by rw [hslice]; exact hl.2.2.1)
      (by rw [hslice]; exact hsum1)]
    rw [hslice]
    have e2 : pre ++ l.length :: (l ++ (DomainName.encode ls ++ post)) =
        (pre ++ l.length :: l) ++ DomainName.encode ls ++ post := by
      simp
    have e3 : pre.length + l.length + 1 = (pre ++ l.length :: l).length := by
      simp
      omega
    rw [e2, e3]
    rw [ih (pre ++ l.length :: l) post (seq ++ [l]) f
      (fun x hx => hw x (by simp [hx])) hsum2 (by simpa using hf)]
    rw [henc]
    simp
    omega

theorem parse_from_encode (n : Name) (pre post : Bytes) (fuel : Nat)
    (hw : wfName n = true) (hf : n.length + 1 ≤ fuel) :
    parse_from fuel (pre ++ DomainName.encode n ++ post) pre.length =
      .ok (n, pre.length + (DomainName.encode n).length) := by
  rcases wfName_cases n hw with rfl | ⟨hne, hwl, hlen⟩
  · obtain ⟨f, rfl⟩ : ∃ f, fuel = f + 1 := ⟨fuel - 1, by omega⟩
    have e : pre ++ DomainName.encode [[]] ++ post = pre ++ 0 :: post := by
      simp [DomainName.encode]
    unfold parse_from
    rw [e, parseLoop_zero f _ _ _ (getElem?_append_cons pre post 0)]
    simp [DomainName.encode]
  · have hsum : (([] ++ n).map List.length).sum < 256 := by
      rw [encode_length_of_nonempty n hwl] at hlen
      simp only [List.nil_append]
      omega
    unfold parse_from
    rw [parseLoop_encode n pre post [] fuel hwl hsum hf]
    simp only [List.nil_append]
    rw [if_neg (by simpa using hne)]

theorem question_parse_encode (q : DnsQuestion) (pre post : Bytes) (fuel : Nat)
    (hw : wfQuestion q = true) (hf : 256 ≤ fuel) :
    DnsQuestion.parse fuel (pre ++ q.encode ++ post) pre.length =
      .ok (q, pre.length + q.encode.length) := by
  have hw3 := hw
  simp only [wfQuestion, Bool.and_eq_true, decide_eq_true_eq] at hw3
  obtain ⟨⟨hwn, hqt⟩, hqc⟩ := hw3
  have e : pre ++ q.encode ++ post =
      pre ++ DomainName.encode q.name ++ (u16be q.qtype ++ (u16be q.qclass ++ post)) := by
    simp [DnsQuestion.encode]
  unfold DnsQuestion.parse
  rw [e, parse_from_encode q.name pre _ fuel hwn (by
    have := wfName_len q.name hwn
    omega)]
  have hlen : pre.length + (DomainName.encode q.name).length + 4 ≤
      (pre ++ DomainName.encode q.name ++ (u16be q.qtype ++ (u16be q.qclass ++ post))).length := by
    simp [u16be]
    omega
  have h1 : u16at (pre ++ DomainName.encode q.name ++ (u16be q.qtype ++ (u16be q.qclass ++ post)))
      (pre.length + (DomainName.encode q.name).length) = q.qtype := by
    rw [show pre ++ DomainName.encode q.name ++ (u16be q.qtype ++ (u16be q.qclass ++ post)) =
      (pre ++ DomainName.encode q.name) ++ u16be q.qtype ++ (u16be q.qclass ++ post) by simp,
      show pre.length + (DomainName.encode q.name).length =
      (pre ++ DomainName.encode q.name).length by simp]
    exact u16at_pre _ _ _ hqt
  have h2 : u16at (pre ++ DomainName.encode q.name ++ (u16be q.qtype ++ (u16be q.qclass ++ post)))
      (pre.length + (DomainName.encode q.name).length + 2) = q.qclass := by
    rw [show pre ++ DomainName.encode q.name ++ (u16be q.qtype ++ (u16be q.qclass ++ post)) =
      ((pre ++ DomainName.encode q.name) ++ u16be q.qtype) ++ u16be q.qclass ++ post by simp,
      show pre.length + (DomainName.encode q.name).length + 2 =
      ((pre ++ DomainName.encode q.name) ++ u16be q.qtype).length by simp [u16be]; omega]
    exact u16at_pre _ _ _ hqc
  split
  · rename_i name o heq
    simp only [Res.ok.injEq, Prod.mk.injEq] at heq
    obtain ⟨hn, ho⟩ := heq
    subst hn
    subst ho
    rw [if_pos hlen, h1, h2]
    have e3 : pre.length + (DomainName.encode q.name).length + 4 =
        pre.length + q.encode.length := by
      simp [DnsQuestion.encode, u16be]
      omega
    rw [e3]
  · rename_i e0 heq
    exact absurd heq (by simp)
  · rename_i heq
    exact absurd heq (by simp)

theorem reencode_encode (t : Nat) (rdata pre6 post : Bytes) (fuel : Nat)
    (hd : wfRdataFor t rdata) (helig : isCompressionEligible t = true) (hf : 256 ≤ fuel) :
    reencodeRData fuel t (pre6 ++ rdata ++ post) pre6.length = .ok rdata := by
  by_cases hsoa : (t == rtSOA) = true
  · rw [wfRdataFor, if_pos hsoa] at hd
    obtain ⟨mn, rn, s1, s2, s3, s4, hmn, hrn, hb1, hb2, hb3, hb4, rfl⟩ := hd
    rw [reencodeRData, if_pos hsoa]
    have e : pre6 ++ (DomainName.encode mn ++ DomainName.encode rn ++
        u32be s1 ++ u32be s2 ++ u32be s3 ++ u32be s4) ++ post =
        pre6 ++ DomainName.encode mn ++ (DomainName.encode rn ++
        (u32be s1 ++ (u32be s2 ++ (u32be s3 ++ (u32be s4 ++ post))))) := by
      simp
    rw [e, parse_from_encode mn pre6 _ fuel hmn
      (by have := wfName_len mn hmn; omega)]
    split
    · rename_i mname o1 heq
      simp only [Res.ok.injEq, Prod.mk.injEq] at heq
      obtain ⟨hn1, ho1⟩ := heq
      subst hn1
      subst ho1
      have e2 : pre6 ++ DomainName.encode mn ++ (DomainName.encode rn ++
          (u32be s1 ++ (u32be s2 ++ (u32be s3 ++ (u32be s4 ++ post))))) =
          (pre6 ++ DomainName.encode mn) ++ DomainName.encode rn ++
          (u32be s1 ++ (u32be s2 ++ (u32be s3 ++ (u32be s4 ++ post)))) := by
        simp
      have e3 : pre6.length + (DomainName.encode mn).length =
          (pre6 ++ DomainName.encode mn).length := by simp
      rw [e2, e3, parse_from_encode rn (pre6 ++ DomainName.encode mn) _ fuel hrn
        (by have := wfName_len rn hrn; omega)]
      split
      · rename_i rname o2 heq2
        simp only [Res.ok.injEq, Prod.mk.injEq] at heq2
        obtain ⟨hn2, ho2⟩ := heq2
        subst hn2
        subst ho2
        set P2 := (pre6 ++ DomainName.encode mn) ++ DomainName.encode rn with hP2
        have e4 : (pre6 ++ DomainName.encode mn).length + (DomainName.encode rn).length =
            P2.length := by simp [hP2]; omega
        rw [e4]
        have hguard : P2.length + 16 ≤ (P2 ++ (u32be s1 ++ (u32be s2 ++ (u32be s3 ++
            (u32be s4 ++ post))))).length := by
          simp [u32be]
        rw [if_pos hguard]
        have hv1 : u32at (P2 ++ (u32be s1 ++ (u32be s2 ++ (u32be s3 ++ (u32be s4 ++ post)))))
            P2.length = s1 := by
          rw [show P2 ++ (u32be s1 ++ (u32be s2 ++ (u32be s3 ++ (u32be s4 ++ post)))) =
            P2 ++ u32be s1 ++ (u32be s2 ++ (u32be s3 ++ (u32be s4 ++ post))) by simp]
          exact u32at_pre _ _ _ hb1
        have hv2 : u32at (P2 ++ (u32be s1 ++ (u32be s2 ++ (u32be s3 ++ (u32be s4 ++ post)))))
            (P2.length + 4) = s2 := by
          rw [show P2 ++ (u32be s1 ++ (u32be s2 ++ (u32be s3 ++ (u32be s4 ++ post)))) =
            (P2 ++ u32be s1) ++ u32be s2 ++ (u32be s3 ++ (u32be s4 ++ post)) by simp,
            show P2.length + 4 = (P2 ++ u32be s1).length by simp [u32be]]
          exact u32at_pre _ _ _ hb2
        have hv3 : u32at (P2 ++ (u32be s1 ++ (u32be s2 ++ (u32be s3 ++ (u32be s4 ++ post)))))
            (P2.length + 8) = s3 := by
          rw [show P2 ++ (u32be s1 ++ (u32be s2 ++ (u32be s3 ++ (u32be s4 ++ post)))) =
            ((P2 ++ u32be s1) ++ u32be s2) ++ u32be s3 ++ (u32be s4 ++ post) by simp,
            show P2.length + 8 = ((P2 ++ u32be s1) ++ u32be s2).length by
              simp [u32be]]
          exact u32at_pre _ _ _ hb3
        have hv4 : u32at (P2 ++ (u32be s1 ++ (u32be s2 ++ (u32be s3 ++ (u32be s4 ++ post)))))
            (P2.length + 12) = s4 := by
          rw [show P2 ++ (u32be s1 ++ (u32be s2 ++ (u32be s3 ++ (u32be s4 ++ post)))) =
            (((P2 ++ u32be s1) ++ u32be s2) ++ u32be s3) ++ u32be s4 ++ post by simp,
            show P2.length + 12 = (((P2 ++ u32be s1) ++ u32be s2) ++ u32be s3).length by
              simp [u32be]]
          exact u32at_pre _ _ _ hb4
        rw [hv1, hv2, hv3, hv4]
      · rename_i e0 heq2
        exact absurd heq2 (by simp)
      · rename_i heq2
        exact absurd heq2 (by simp)
    · rename_i e0 heq
      exact absurd heq (by simp)
    · rename_i heq
      exact absurd heq (by simp)
  · have hsoaF : (t == rtSOA) = false := by
      revert hsoa
      cases t == rtSOA <;> simp
    have hd2 : ∃ nm, wfName nm = true ∧ rdata = DomainName.encode nm := by
      rw [wfRdataFor, if_neg hsoa, if_pos helig] at hd
      exact hd
    obtain ⟨nm, hnm, rfl⟩ := hd2
    rw [reencodeRData, if_neg hsoa,
      parse_from_encode nm pre6 post fuel hnm (by have := wfName_len nm hnm; omega)]

theorem record_parse_encode (r : DnsRecord) (pre post : Bytes) (fuel : Nat)
    (hw : wfRecord r) (hf : 256 ≤ fuel) :
    DnsRecord.parse fuel (pre ++ r.encode ++ post) pre.length =
      .ok (r, pre.length + r.encode.length) := by
  obtain ⟨hwn, hrt, hrc, httl, hrdl, hrlen, hcomp, hrdata⟩ := hw
  have e : pre ++ r.encode ++ post =
      pre ++ DomainName.encode r.name ++ (u16be r.rtype ++ (u16be r.rclass ++
        (u32be r.ttl ++ (u16be r.rdlength ++ (r.rdata ++ post))))) := by
    simp [DnsRecord.encode]
  unfold DnsRecord.parse
  rw [e, parse_from_encode r.name pre _ fuel hwn
    (by have := wfName_len r.name hwn; omega)]
  set encN := DomainName.encode r.name with hencN
  set D := pre ++ encN ++ (u16be r.rtype ++ (u16be r.rclass ++
    (u32be r.ttl ++ (u16be r.rdlength ++ (r.rdata ++ post))))) with hD
  have hDlen : D.length = pre.length + encN.length + 10 + r.rdata.length + post.length := by
    simp [hD, u16be, u32be]
    omega
  split
  · rename_i name o1 heq
    simp only [Res.ok.injEq, Prod.mk.injEq] at heq
    obtain ⟨hn, ho⟩ := heq
    subst hn
    subst ho
    have hg : pre.length + encN.length + 10 ≤ D.length := by omega
    rw [if_pos hg]
    dsimp only
    have hA : u16at D (pre.length + encN.length) = r.rtype := by
      rw [show D = (pre ++ encN) ++ u16be r.rtype ++ (u16be r.rclass ++
        (u32be r.ttl ++ (u16be r.rdlength ++ (r.rdata ++ post)))) by simp [hD],
        show pre.length + encN.length = (pre ++ encN).length by simp]
      exact u16at_pre _ _ _ hrt
    have hB : u16at D (pre.length + encN.length + 2) = r.rclass := by
      rw [show D = ((pre ++ encN) ++ u16be r.rtype) ++ u16be r.rclass ++
        (u32be r.ttl ++ (u16be r.rdlength ++ (r.rdata ++ post))) by simp [hD],
        show pre.length + encN.length + 2 = ((pre ++ encN) ++ u16be r.rtype).length by
          simp [u16be]; omega]
      exact u16at_pre _ _ _ hrc
    have hC : u32at D (pre.length + encN.length + 4) = r.ttl := by
      rw [show D = (((pre ++ encN) ++ u16be r.rtype) ++ u16be r.rclass) ++ u32be r.ttl ++
        (u16be r.rdlength ++ (r.rdata ++ post)) by simp [hD],
        show pre.length + encN.length + 4 =
          (((pre ++ encN) ++ u16be r.rtype) ++ u16be r.rclass).length by
          simp [u16be]; omega]
      exact u32at_pre _ _ _ httl
    have hDl : u16at D (pre.length + encN.length + 8) = r.rdlength := by
      rw [show D = ((((pre ++ encN) ++ u16be r.rtype) ++ u16be r.rclass) ++ u32be r.ttl) ++
        u16be r.rdlength ++ (r.rdata ++ post) by simp [hD],
        show pre.length + encN.length + 8 =
          ((((pre ++ encN) ++ u16be r.rtype) ++ u16be r.rclass) ++ u32be r.ttl).length by
          simp [u16be, u32be]; omega]
      have : r.rdlength < 65536 := by omega
      exact u16at_pre _ _ _ this
    have hE : (D.drop (pre.length + encN.length + 10)).take r.rdlength = r.rdata := by
      rw [show D = (((((pre ++ encN) ++ u16be r.rtype) ++ u16be r.rclass) ++ u32be r.ttl) ++
        u16be r.rdlength) ++ (r.rdata ++ post) by simp [hD],
        show pre.length + encN.length + 10 =
          (((((pre ++ encN) ++ u16be r.rtype) ++ u16be r.rclass) ++ u32be r.ttl) ++
            u16be r.rdlength).length by simp [u16be, u32be]; omega,
        List.drop_left, hrdl]
      exact List.take_left r.rdata post
    rw [hA, hB, hC, hDl, hE]
    rw [if_pos (show (r.rdata.length == r.rdlength) = true by simp [hrdl])]
    have hrec : DnsRecord.init r.name r.rtype r.rclass r.ttl r.rdata = r := by
      obtain ⟨n1, t1, c1, l1, dl1, d1, cd1⟩ := r
      simp only at hrdl hcomp
      simp [DnsRecord.init, hrdl, hcomp]
    have hoff : pre.length + encN.length + 10 + r.rdlength =
        pre.length + r.encode.length := by
      simp [DnsRecord.encode, u16be, u32be, hencN, hrdl]
      omega
    by_cases helig : isCompressionEligible r.rtype = true
    · rw [if_pos helig]
      have hre : reencodeRData fuel r.rtype D (pre.length + encN.length + 10) =
          .ok r.rdata := by
        rw [show D = (((((pre ++ encN) ++ u16be r.rtype) ++ u16be r.rclass) ++
          u32be r.ttl) ++ u16be r.rdlength) ++ r.rdata ++ post by simp [hD],
          show pre.length + encN.length + 10 =
            (((((pre ++ encN) ++ u16be r.rtype) ++ u16be r.rclass) ++ u32be r.ttl) ++
              u16be r.rdlength).length by simp [u16be, u32be]; omega]
        exact reencode_encode r.rtype r.rdata _ post fuel hrdata helig hf
      rw [hre]
      split
      · rename_i unc hequ
        simp only [Res.ok.injEq] at hequ
        subst hequ
        rw [if_pos (show (r.rdata == r.rdata) = true by simp)]
        rw [hrec, hoff]
      · rename_i e0 hequ
        exact absurd hequ (by simp)
      · rename_i hequ
        exact absurd hequ (by simp)
    · rw [if_neg helig]
      rw [hrec, hoff]
  · rename_i e0 heq
    exact absurd heq (by simp)
  · rename_i heq
    exact absurd heq (by simp)

theorem parseQuestions_encode : ∀ (qs : List DnsQuestion) (pre post : Bytes)
    (acc : List DnsQuestion) (fuel : Nat),
    (∀ q ∈ qs, wfQuestion q = true) → 256 ≤ fuel →
    parseQuestions fuel (pre ++ (qs.map DnsQuestion.encode).flatten ++ post)
      qs.length pre.length acc =
      .ok (acc ++ qs, pre.length + ((qs.map DnsQuestion.encode).flatten).length) := by
  intro qs
  induction qs with
  | nil =>
    intro pre post acc fuel _ _
    simp [parseQuestions]
  | cons q qs ih =>
    intro pre post acc fuel hw hf
    have e : pre ++ ((q :: qs).map DnsQuestion.encode).flatten ++ post =
        pre ++ q.encode ++ ((qs.map DnsQuestion.encode).flatten ++ post) := by
      simp
    rw [List.length_cons, e, parseQuestions,
      question_parse_encode q pre _ fuel (hw q (by simp)) hf]
    split
    · rename_i q2 o2 heq
      simp only [Res.ok.injEq, Prod.mk.injEq] at heq
      obtain ⟨hq2, ho2⟩ := heq
      subst hq2
      subst ho2
      have e2 : pre ++ q.encode ++ ((qs.map DnsQuestion.encode).flatten ++ post) =
          (pre ++ q.encode) ++ (qs.map DnsQuestion.encode).flatten ++ post := by
        simp
      have e3 : pre.length + q.encode.length = (pre ++ q.encode).length := by simp
      rw [e2, e3, ih (pre ++ q.encode) post (acc ++ [q]) fuel
        (fun x hx => hw x (by simp [hx])) hf]
      simp
      omega
    · rename_i e0 heq
      exact absurd heq (by simp)
    · rename_i heq
      exact absurd heq (by simp)

theorem recordsLoop_fillR : ∀ (rs : List DnsRecord) (pre : Bytes)
    (accA accN accR : List DnsRecord) (AN NSc AR fuel : Nat),
    (∀ r ∈ rs, wfRecord r) →
    accA.length = AN → accN.length = NSc → accR.length + rs.length = AR →
    rs.length + 256 ≤ fuel →
    recordsLoop (pre ++ (rs.map DnsRecord.encode).flatten) AN NSc AR fuel
      pre.length accA accN accR =
      .ok (accA, accN, accR ++ rs,
        pre.length + ((rs.map DnsRecord.encode).flatten).length) := by
  intro rs
  induction rs with
  | nil =>
    intro pre accA accN accR AN NSc AR fuel _ hA hN hR hf
    obtain ⟨f, rfl⟩ : ∃ f, fuel = f + 1 := ⟨fuel - 1, by omega⟩
    rw [recordsLoop, if_neg (by simp)]
    simp
  | cons r rs ih =>
    intro pre accA accN accR AN NSc AR fuel hw hA hN hR hf
    obtain ⟨f, rfl⟩ : ∃ f, fuel = f + 1 := ⟨fuel - 1, by omega⟩
    have hepos : 0 < r.encode.length := by
      simp [DnsRecord.encode, u16be]
    have e : pre ++ ((r :: rs).map DnsRecord.encode).flatten =
        pre ++ r.encode ++ (rs.map DnsRecord.encode).flatten := by
      simp
    rw [e, recordsLoop, if_pos (by simp; omega),
      record_parse_encode r pre _ (f + 1) (hw r (by simp)) (by omega)]
    split
    · rename_i rr o2 heq
      simp only [Res.ok.injEq, Prod.mk.injEq] at heq
      obtain ⟨hr2, ho2⟩ := heq
      subst hr2
      subst ho2
      rw [if_neg (by omega), if_neg (by omega),
        if_pos (by simp only [List.length_cons] at hR; omega)]
      have e2 : pre ++ r.encode ++ (rs.map DnsRecord.encode).flatten =
          (pre ++ r.encode) ++ (rs.map DnsRecord.encode).flatten := by
        simp
      have e3 : pre.length + r.encode.length = (pre ++ r.encode).length := by simp
      have hR2 : (accR ++ [r]).length + rs.length = AR := by
        simp only [List.length_append, List.length_cons, List.length_nil] at hR ⊢
        omega
      have hf2 : rs.length + 256 ≤ f := by
        simp only [List.length_cons] at hf
        omega
      rw [e2, e3, ih (pre ++ r.encode) accA accN (accR ++ [r]) AN NSc AR f
        (fun x hx => hw x (by simp [hx])) hA hN hR2 hf2]
      simp
      omega
    · rename_i e0 heq
      exact absurd heq (by simp)
    · rename_i heq
      exact absurd heq (by simp)

theorem recordsLoop_fillN : ∀ (rsN : List DnsRecord) (rsR : List DnsRecord) (pre : Bytes)
    (accA accN accR : List DnsRecord) (AN NSc AR fuel : Nat),
    (∀ r ∈ rsN ++ rsR, wfRecord r) →
    accA.length = AN → accN.length + rsN.length = NSc → accR.length + rsR.length = AR →
    (rsN ++ rsR).length + 256 ≤ fuel →
    recordsLoop (pre ++ ((rsN ++ rsR).map DnsRecord.encode).flatten) AN NSc AR fuel
      pre.length accA accN accR =
      .ok (accA, accN ++ rsN, accR ++ rsR,
        pre.length + (((rsN ++ rsR).map DnsRecord.encode).flatten).length) := by
  intro rsN
  induction rsN with
  | nil =>
    intro rsR pre accA accN accR AN NSc AR fuel hw hA hN hR hf
    have := recordsLoop_fillR rsR pre accA accN accR AN NSc AR fuel
      (by simpa using hw) hA (by simpa using hN) hR (by simpa using hf)
    simpa using this
  | cons r rsN ih =>
    intro rsR pre accA accN accR AN NSc AR fuel hw hA hN hR hf
    obtain ⟨f, rfl⟩ : ∃ f, fuel = f + 1 := ⟨fuel - 1, by omega⟩
    have hepos : 0 < r.encode.length := by
      simp [DnsRecord.encode, u16be]
    have e : pre ++ (((r :: rsN) ++ rsR).map DnsRecord.encode).flatten =
        pre ++ r.encode ++ ((rsN ++ rsR).map DnsRecord.encode).flatten := by
      simp
    rw [e, recordsLoop, if_pos (by simp; omega),
      record_parse_encode r pre _ (f + 1) (hw r (by simp)) (by omega)]
    split
    · rename_i rr o2 heq
      simp only [Res.ok.injEq, Prod.mk.injEq] at heq
      obtain ⟨hr2, ho2⟩ := heq
      subst hr2
      subst ho2
      rw [if_neg (by omega), if_pos (by simp only [List.length_cons] at hN; omega)]
      have e2 : pre ++ r.encode ++ ((rsN ++ rsR).map DnsRecord.encode).flatten =
          (pre ++ r.encode) ++ ((rsN ++ rsR).map DnsRecord.encode).flatten := by
        simp
      have e3 : pre.length + r.encode.length = (pre ++ r.encode).length := by simp
      have hN2 : (accN ++ [r]).length + rsN.length = NSc := by
        simp only [List.length_append, List.length_cons, List.length_nil] at hN ⊢
        omega
      have hf2 : (rsN ++ rsR).length + 256 ≤ f := by
        simp only [List.length_append, List.length_cons] at hf ⊢
        omega
      rw [e2, e3, ih rsR (pre ++ r.encode) accA (accN ++ [r]) accR AN NSc AR f
        (fun x hx => hw x (by simp at hx ⊢; tauto)) hA hN2 hR hf2]
      simp
      omega
    · rename_i e0 heq
      exact absurd heq (by simp)
    · rename_i heq
      exact absurd heq (by simp)

theorem recordsLoop_fillA : ∀ (rsA rsN rsR : List DnsRecord) (pre : Bytes)
    (accA accN accR : List DnsRecord) (AN NSc AR fuel : Nat),
    (∀ r ∈ rsA ++ rsN ++ rsR, wfRecord r) →
    accA.length + rsA.length = AN → accN.length + rsN.length = NSc →
    accR.length + rsR.length = AR →
    (rsA ++ rsN ++ rsR).length + 256 ≤ fuel →
    recordsLoop (pre ++ ((rsA ++ rsN ++ rsR).map DnsRecord.encode).flatten) AN NSc AR fuel
      pre.length accA accN accR =
      .ok (accA ++ rsA, accN ++ rsN, accR ++ rsR,
        pre.length + (((rsA ++ rsN ++ rsR).map DnsRecord.encode).flatten).length) := by
  intro rsA
  induction rsA with
  | nil =>
    intro rsN rsR pre accA accN accR AN NSc AR fuel hw hA hN hR hf
    have := recordsLoop_fillN rsN rsR pre accA accN accR AN NSc AR fuel
      (by simpa using hw) (by simpa using hA) hN hR (by simpa using hf)
    simpa using this
  | cons r rsA ih =>
    intro rsN rsR pre accA accN accR AN NSc AR fuel hw hA hN hR hf
    obtain ⟨f, rfl⟩ : ∃ f, fuel = f + 1 := ⟨fuel - 1, by omega⟩
    have hepos : 0 < r.encode.length := by
      simp [DnsRecord.encode, u16be]
    have e : pre ++ (((r :: rsA) ++ rsN ++ rsR).map DnsRecord.encode).flatten =
        pre ++ r.encode ++ ((rsA ++ rsN ++ rsR).map DnsRecord.encode).flatten := by
      simp
    rw [e, recordsLoop, if_pos (by simp; omega),
      record_parse_encode r pre _ (f + 1) (hw r (by simp)) (by omega)]
    split
    · rename_i rr o2 heq
      simp only [Res.ok.injEq, Prod.mk.injEq] at heq
      obtain ⟨hr2, ho2⟩ := heq
      subst hr2
      subst ho2
      rw [if_pos (by simp only [List.length_cons] at hA; omega)]
      have e2 : pre ++ r.encode ++ ((rsA ++ rsN ++ rsR).map DnsRecord.encode).flatten =
          (pre ++ r.encode) ++ ((rsA ++ rsN ++ rsR).map DnsRecord.encode).flatten := by
        simp
      have e3 : pre.length + r.encode.length = (pre ++ r.encode).length := by simp
      have hA2 : (accA ++ [r]).length + rsA.length = AN := by
        simp only [List.length_append, List.length_cons, List.length_nil] at hA ⊢
        omega
      have hf2 : (rsA ++ rsN ++ rsR).length + 256 ≤ f := by
        simp only [List.length_append, List.length_cons] at hf ⊢
        omega
      rw [e2, e3, ih rsN rsR (pre ++ r.encode) (accA ++ [r]) accN accR AN NSc AR f
        (fun x hx => hw x (by simp at hx ⊢; tauto)) hA2 hN hR hf2]
      simp
      omega
    · rename_i e0 heq
      exact absurd heq (by simp)
    · rename_i heq
      exact absurd heq (by simp)

@[simp] theorem u16be_length (n : Nat) : (u16be n).length = 2 := rfl

@[simp] theorem u32be_length (n : Nat) : (u32be n).length = 4 := rfl

theorem flagsByte1_bits : ∀ (q : Fin 2) (o : Fin 3) (a t r : Bool),
    ((flagsByte1 q.val o.val a t r &&& 128) >>> 7 = q.val) ∧
    isOpCode ((flagsByte1 q.val o.val a t r &&& 120) >>> 3) = true ∧
    ((flagsByte1 q.val o.val a t r &&& 120) >>> 3 = o.val) ∧
    (((flagsByte1 q.val o.val a t r &&& 4) != 0) = a) ∧
    (((flagsByte1 q.val o.val a t r &&& 2) != 0) = t) ∧
    (((flagsByte1 q.val o.val a t r &&& 1) != 0) = r) := by
  decide

theorem flagsByte2_bits : ∀ (ra : Bool) (z : Fin 8) (rc : Fin 6),
    (((flagsByte2 ra z.val rc.val &&& 128) != 0) = ra) ∧
    isRCode (flagsByte2 ra z.val rc.val &&& 15) = true ∧
    ((flagsByte2 ra z.val rc.val &&& 112) >>> 4 = z.val) ∧
    (flagsByte2 ra z.val rc.val &&& 15 = rc.val) := by
  decide

/-! ## C6 -/

/-- C6: decoding the encoding of a well-formed message (ASCII labels,
names under 256 octets, no compression pointers, constructor invariants:
counts equal to section lengths, in-range fields, canonical payloads for
compression-eligible types, empty suffix) returns the message itself,
consuming the whole buffer. -/
theorem c6_roundtrip_uncompressed (m : DnsPacket) (h : wfPacket m) :
    DnsPacket.parse (msgFuel m) m.encode = .ok (m, m.encode.length) := by
  obtain ⟨hID, hQR, hOP, hZ, hRC, hqd, han, hns, har, hql, hal, hnl, hrl,
    hwq, hwa, hwn2, hwr, hsf⟩ := h
  obtain ⟨ID, QR, OP, AA, TC, RD, RA, Z, RC, QD, AN, NS, AR, qs, ans, nss, ars, sf⟩ := m
  simp only at hID hQR hOP hZ hRC hqd han hns har hql hal hnl hrl hwq hwa hwn2 hwr hsf
  subst hsf
  subst hqd
  subst han
  subst hns
  subst har
  have hOP2 : OP ≤ 2 := by simpa [isOpCode] using hOP
  have hRC2 : RC ≤ 5 := by simpa [isRCode] using hRC
  have hb1 := flagsByte1_bits ⟨QR, hQR⟩ ⟨OP, by omega⟩ AA TC RD
  have hb2 := flagsByte2_bits RA ⟨Z, hZ⟩ ⟨RC, by omega⟩
  simp only [Fin.val_mk] at hb1 hb2
  set f1 := flagsByte1 QR OP AA TC RD with hf1
  set f2 := flagsByte2 RA Z RC with hf2
  set BQ : Bytes := (qs.map DnsQuestion.encode).flatten with hBQ
  set BR : Bytes := ((ans ++ nss ++ ars).map DnsRecord.encode).flatten with hBR
  set M : DnsPacket := ⟨ID, QR, OP, AA, TC, RD, RA, Z, RC, qs.length, ans.length,
    nss.length, ars.length, qs, ans, nss, ars, []⟩ with hM
  have hE : M.encode = u16be ID ++ f1 :: f2 :: (u16be qs.length ++ (u16be ans.length ++
      (u16be nss.length ++ (u16be ars.length ++ (BQ ++ BR))))) := by
    simp [hM, DnsPacket.encode, hBQ, hBR, hf1, hf2]
  have hlenE : 12 + BQ.length + BR.length = M.encode.length := by
    rw [hE]
    simp [u16be]
    omega
  have h2r : M.encode[2]? = some f1 := by
    rw [hE, show (2 : Nat) = (u16be ID).length by simp [u16be]]
    exact getElem?_append_cons _ _ _
  have h3r : M.encode[3]? = some f2 := by
    rw [hE, show u16be ID ++ f1 :: f2 :: (u16be qs.length ++ (u16be ans.length ++
      (u16be nss.length ++ (u16be ars.length ++ (BQ ++ BR))))) =
      (u16be ID ++ [f1]) ++ f2 :: (u16be qs.length ++ (u16be ans.length ++
      (u16be nss.length ++ (u16be ars.length ++ (BQ ++ BR))))) by simp,
      show (3 : Nat) = (u16be ID ++ [f1]).length by simp [u16be]]
    exact getElem?_append_cons _ _ _
  have h0r : u16at M.encode 0 = ID := by
    rw [hE]
    exact u16at_pre [] _ ID hID
  have h4r : u16at M.encode 4 = qs.length := by
    rw [hE, show u16be ID ++ f1 :: f2 :: (u16be qs.length ++ (u16be ans.length ++
      (u16be nss.length ++ (u16be ars.length ++ (BQ ++ BR))))) =
      (u16be ID ++ [f1, f2]) ++ u16be qs.length ++ (u16be ans.length ++
      (u16be nss.length ++ (u16be ars.length ++ (BQ ++ BR)))) by simp,
      show (4 : Nat) = (u16be ID ++ [f1, f2]).length by simp [u16be]]
    exact u16at_pre _ _ _ hql
  have h6r : u16at M.encode 6 = ans.length := by
    rw [hE, show u16be ID ++ f1 :: f2 :: (u16be qs.length ++ (u16be ans.length ++
      (u16be nss.length ++ (u16be ars.length ++ (BQ ++ BR))))) =
      ((u16be ID ++ [f1, f2]) ++ u16be qs.length) ++ u16be ans.length ++
      (u16be nss.length ++ (u16be ars.length ++ (BQ ++ BR))) by simp,
      show (6 : Nat) = ((u16be ID ++ [f1, f2]) ++ u16be qs.length).length by simp [u16be]]
    exact u16at_pre _ _ _ hal
  have h8r : u16at M.encode 8 = nss.length := by
    rw [hE, show u16be ID ++ f1 :: f2 :: (u16be qs.length ++ (u16be ans.length ++
      (u16be nss.length ++ (u16be ars.length ++ (BQ ++ BR))))) =
      (((u16be ID ++ [f1, f2]) ++ u16be qs.length) ++ u16be ans.length) ++
      u16be nss.length ++ (u16be ars.length ++ (BQ ++ BR)) by simp,
      show (8 : Nat) = (((u16be ID ++ [f1, f2]) ++ u16be qs.length) ++
        u16be ans.length).length by simp [u16be]]
    exact u16at_pre _ _ _ hnl
  have h10r : u16at M.encode 10 = ars.length := by
    rw [hE, show u16be ID ++ f1 :: f2 :: (u16be qs.length ++ (u16be ans.length ++
      (u16be nss.length ++ (u16be ars.length ++ (BQ ++ BR))))) =
      ((((u16be ID ++ [f1, f2]) ++ u16be qs.length) ++ u16be ans.length) ++
      u16be nss.length) ++ u16be ars.length ++ (BQ ++ BR) by simp,
      show (10 : Nat) = ((((u16be ID ++ [f1, f2]) ++ u16be qs.length) ++
        u16be ans.length) ++ u16be nss.length).length by simp [u16be]]
    exact u16at_pre _ _ _ hrl
  have hq12 : parseQuestions (msgFuel M) M.encode qs.length 12 [] =
      .ok (qs, 12 + BQ.length) := by
    have e12 : M.encode = ((u16be ID ++ [f1, f2]) ++ u16be qs.length ++ u16be ans.length ++
        u16be nss.length ++ u16be ars.length) ++ BQ ++ BR := by
      rw [hE]
      simp
    have e12b : (12 : Nat) = ((u16be ID ++ [f1, f2]) ++ u16be qs.length ++
        u16be ans.length ++ u16be nss.length ++ u16be ars.length).length := by
      simp [u16be]
    have hfuel : 256 ≤ msgFuel M := by
      simp [msgFuel]
    rw [e12]
    rw [show parseQuestions (msgFuel M) (((u16be ID ++ [f1, f2]) ++ u16be qs.length ++
      u16be ans.length ++ u16be nss.length ++ u16be ars.length) ++ BQ ++ BR)
      qs.length 12 [] = parseQuestions (msgFuel M) (((u16be ID ++ [f1, f2]) ++
      u16be qs.length ++ u16be ans.length ++ u16be nss.length ++ u16be ars.length) ++
      BQ ++ BR) qs.length ((u16be ID ++ [f1, f2]) ++ u16be qs.length ++
      u16be ans.length ++ u16be nss.length ++ u16be ars.length).length [] by rw [← e12b]]
    rw [hBQ, parseQuestions_encode qs _ BR [] (msgFuel M) hwq hfuel]
    simp [← e12b, hBQ]
  have hr12 : recordsLoop M.encode ans.length nss.length ars.length (msgFuel M)
      (12 + BQ.length) [] [] [] =
      .ok (ans, nss, ars, 12 + BQ.length + BR.length) := by
    have e13 : M.encode = (((u16be ID ++ [f1, f2]) ++ u16be qs.length ++ u16be ans.length ++
        u16be nss.length ++ u16be ars.length) ++ BQ) ++
        ((ans ++ nss ++ ars).map DnsRecord.encode).flatten := by
      rw [hE, hBR]
      simp
    have e13b : 12 + BQ.length = (((u16be ID ++ [f1, f2]) ++ u16be qs.length ++
        u16be ans.length ++ u16be nss.length ++ u16be ars.length) ++ BQ).length := by
      simp [u16be]
      omega
    have hfuel : (ans ++ nss ++ ars).length + 256 ≤ msgFuel M := by
      simp [msgFuel]
      omega
    have hwrec : ∀ r ∈ ans ++ nss ++ ars, wfRecord r := by
      intro r hr
      simp only [List.mem_append] at hr
      rcases hr with (hr | hr) | hr
      · exact hwa r hr
      · exact hwn2 r hr
      · exact hwr r hr
    rw [e13, e13b,
      recordsLoop_fillA ans nss ars _ [] [] [] ans.length nss.length ars.length
        (msgFuel M) hwrec (by simp) (by simp) (by simp) hfuel]
    simp [← e13b, hBR]
  rw [DnsPacket.parse, if_pos (by omega)]
  dsimp only
  rw [h2r]
  split
  · rename_i heq
    exact absurd heq (by simp)
  · rename_i b2 heq
    simp only [Option.some.injEq] at heq
    subst heq
    rw [if_pos hb1.2.1]
    rw [h3r]
    split
    · rename_i heq3
      exact absurd heq3 (by simp)
    · rename_i b3 heq3
      simp only [Option.some.injEq] at heq3
      subst heq3
      rw [if_pos hb2.2.1]
      rw [if_pos (by omega)]
      rw [h4r, h6r, h8r, h10r, hq12]
      split
      · rename_i qs2 o1 heqq
        simp only [Res.ok.injEq, Prod.mk.injEq] at heqq
        obtain ⟨hq2, ho1⟩ := heqq
        subst hq2
        subst ho1
        rw [hr12]
        split
        · rename_i ans2 nss2 ars2 o2 heqr
          simp only [Res.ok.injEq, Prod.mk.injEq] at heqr
          obtain ⟨ha2, hn2, hr2, ho2⟩ := heqr
          subst ha2
          subst hn2
          subst hr2
          subst ho2
          rw [if_pos (by simp)]
          rw [h0r, hb1.1, hb1.2.2.1, hb1.2.2.2.1, hb1.2.2.2.2.1, hb1.2.2.2.2.2,
            hb2.1, hb2.2.2.1, hb2.2.2.2]
          rw [show (12 + BQ.length + BR.length) = M.encode.length from hlenE]
          rw [List.drop_length]
        · rename_i e0 heqr
          exact absurd heqr (by simp)
        · rename_i heqr
          exact absurd heqr (by simp)
      · rename_i e0 heqq
        exact absurd heqq (by simp)
      · rename_i heqq
        exact absurd heqq (by simp)

/-- Witness for C6: the round trip applied to a concrete one-question
message. -/
theorem c6_witness :
    DnsPacket.parse (msgFuel msgW) msgW.encode = .ok (msgW, msgW.encode.length) :=
  c6_roundtrip_uncompressed msgW
    (by
      refine ⟨by decide, by decide, by decide, by decide, by decide, rfl, rfl, rfl, rfl,
        by decide, by decide, by decide, by decide, ?_, by simp [msgW], by simp [msgW],
        by simp [msgW], rfl⟩
      intro q hq
      simp only [msgW, List.mem_singleton] at hq
      subst hq
      decide)
